import Mathlib

/-!
Verification of the TieDIE signed causal-path discovery core
(`lib/tiedie_util.py`): the interaction-label classifier, the rewired-edge
test, the state unifier, the depth-bounded recursive path search, and the
subnetwork extraction helpers.  Strings are modelled as Lean `String`s
(lists of characters); Python dictionaries are modelled as association
lists queried with `List.lookup`; Python sets are modelled as duplicate-free
lists built with a membership-checking insert.  Python `None` is modelled
with `Option`.
-/

/-- Character class of Python 2's regex `\s` (so `\S` is its negation):
space, tab, newline, carriage return, vertical tab, form feed. -/
def pySpace (c : Char) : Bool :=
  c = ' ' || c = '\t' || c = '\n' || c = '\r' || c = '\x0b' || c = '\x0c'

/-- Python `set.add`: append an element to a list unless already present. -/
def setAdd {α : Type} [DecidableEq α] (l : List α) (x : α) : List α :=
  if x ∈ l then l else l ++ [x]

/-- Matching of a fixed regex body against the rest of the input under a
final `$` anchor: Python's `$` matches at the end of the string or just
before a newline that ends the string. -/
def matchEnd (body cs : List Char) : Bool :=
  cs = body || cs = body ++ ['\n']

/-- Matching of `^-?<body>$` (an optional leading dash, then a fixed body):
either the body matches the whole input, or the input starts with a dash
and the body matches the remainder. -/
def matchOptDash (body cs : List Char) : Bool :=
  matchEnd body cs ||
    (match cs with
     | '-' :: rest => matchEnd body rest
     | _ => false)

/-- Group extraction for the body `(\S)e$` (one non-whitespace character
captured, then the literal end character `e`, then the `$` anchor). -/
def groupSingle (e : Char) (cs : List Char) : Option Char :=
  match cs with
  | [c, e'] => if e' = e && !pySpace c then some c else none
  | [c, e', nl] => if e' = e && nl = '\n' && !pySpace c then some c else none
  | _ => none

/-- Group extraction for `^-?(\S)e$` with Python's greedy backtracking: the
optional dash is consumed first when that succeeds, otherwise the dash
itself may be captured by `(\S)`. -/
def groupOptDash (e : Char) (cs : List Char) : Option Char :=
  match cs with
  | '-' :: rest =>
    match groupSingle e rest with
    | some c => some c
    | none => groupSingle e cs
  | _ => groupSingle e cs

/-- Embedding of `classifyInteraction`: ordered regex dispatch over the
label, returning the edge activation type (-1, 0 or 1) and the textual
type tag.  First match wins: `^-?component>$`, then `^-?(\S)>$`, then
`^-?(\S)\|$`, then `^-?REWIRED>$`, then `^-?REWIRED\|$`, with the
default `(1, "INTERACTS")`. -/
def classifyInteraction (i : String) : Int × String :=
  let cs := i.data
  if matchOptDash "component>".data cs then (0, "component")
  else
    match groupOptDash '>' cs with
    | some c => (1, String.mk [c])
    | none =>
      match groupOptDash '|' cs with
      | some c => (-1, String.mk [c])
      | none =>
        if matchOptDash "REWIRED>".data cs then (1, "REWIRED")
        else if matchOptDash "REWIRED|".data cs then (-1, "REWIRED")
        else (1, "INTERACTS")

/-- Matching of Python `re.match(".*<pat>.*", s)`: the pattern occurs at
some position whose preceding characters contain no newline (Python's `.`
does not match a newline). -/
def reContains (pat : List Char) : List Char → Bool
  | [] => List.isPrefixOf pat []
  | c :: rest => List.isPrefixOf pat (c :: rest) || (!(c = '\n') && reContains pat rest)

/-- Embedding of `isRewired`: the label matches `.*REWIRED.*` or
`.*\-component.*` under `re.match`. -/
def isRewired (i : String) : Bool :=
  reContains "REWIRED".data i.data || reContains "-component".data i.data

/-- Numeric sign assigned by `classifyState` to a textual sign: 1 for
`"+"`, -1 for anything else. -/
def signOf (s : String) : Int :=
  if s = "+" then 1 else -1

/-- One dictionary assignment `m[gene] = signOf sign` on a map modelled as
a function into `Option Int`. -/
def applySign (m : String → Option Int) (gene sign : String) : String → Option Int :=
  fun g => if g = gene then some (signOf sign) else m g

/-- Embedding of `classifyState`: iterate `down_signs` first, writing both
the combined state and the transcriptional state, then iterate `up_signs`,
overwriting only the combined state. -/
def classifyState (up_signs down_signs : List (String × String)) :
    (String → Option Int) × (String → Option Int) :=
  let c0 := down_signs.foldl (fun m p => applySign m p.1 p.2) (fun _ => none)
  let t_states := down_signs.foldl (fun m p => applySign m p.1 p.2) (fun _ => none)
  let c := up_signs.foldl (fun m p => applySign m p.1 p.2) c0
  (c, t_states)

/-- Edge triple `(source, interaction, target)` as stored in the
`discovered` set and the linker chain. -/
abbrev EdgeT : Type := String × String × String

/-- Network in hash-key format: an association list from a source node to
its outgoing `(interaction, target)` pairs. -/
abbrev NetT : Type := List (String × List (String × String))

/-- Mutable accumulators of `searchDFS`: the `discovered` edge set and the
`truePaths` / `falsePaths` target sequences. -/
structure DFSState where
  discovered : List EdgeT
  truePaths : List String
  falsePaths : List String
deriving DecidableEq, Repr

/-- False-path status computed for one edge: the inherited status, set to
`True` when the interaction label is rewired
(`pathStatus_ThisTarget` in `searchDFS`). -/
def pathStatusThisTarget (falsePathStatus : Bool) (interaction : String) : Bool :=
  falsePathStatus || isRewired interaction

/-- Action propagated through one edge (`action_this_target` in
`searchDFS`): the code initialises it to `None`, keeps the action when the
classified type is 1, and negates it when the classified type is 2 — a
value `classifyInteraction` never returns, so every other type (including
-1) leaves it `None`. -/
def actionThisTarget (i_type : Int) (action : Option Int) : Option Int :=
  if i_type = 1 then action
  else if i_type = 2 then Option.map (fun a => -a) action
  else none

/-- Body of the `for (interaction, target) in net[source]` loop of
`searchDFS`, processing one outgoing edge.  The accumulator carries the
mutable state together with the current `linker_nodes` (which the loop
re-binds to the empty set after a match).  `recurse` is the recursive call
made at depth-1; component edges skip everything, transcriptional edges
(`post_t_type == "t"`) skip only the recursive call. -/
def processEdge (recurse : String → Option Int → DFSState → List EdgeT → Bool → DFSState)
    (gene_states : List (String × Int)) (target_set : List String)
    (source : String) (action : Option Int) (falsePathStatus : Bool)
    (acc : DFSState × List EdgeT) (e : String × String) : DFSState × List EdgeT :=
  let st := acc.1
  let linkers := acc.2
  let interaction := e.1
  let target := e.2
  let pathStatus := pathStatusThisTarget falsePathStatus interaction
  let cls := classifyInteraction interaction
  if cls.1 = 0 then (st, linkers)
  else
    let action_tt := actionThisTarget cls.1 action
    let this_state := List.lookup target gene_states
    if (List.lookup target gene_states).isSome && target_set.contains target
        && action_tt == this_state then
      let disc := setAdd (linkers.foldl setAdd st.discovered) (source, interaction, target)
      let st1 : DFSState :=
        { discovered := disc
          truePaths := if pathStatus then st.truePaths else st.truePaths ++ [target]
          falsePaths := if pathStatus then st.falsePaths ++ [target] else st.falsePaths }
      if cls.2 = "t" then (st1, [])
      else (recurse target action_tt st1 [] pathStatus, [])
    else
      let new_linkers := setAdd linkers (source, interaction, target)
      if cls.2 = "t" then (st, linkers)
      else (recurse target action_tt st new_linkers pathStatus, linkers)

/-- Embedding of `searchDFS`: return at depth 0 or when the source has no
entry in the network, otherwise run the edge loop, threading the mutable
state and the loop-local `linker_nodes` through the iterations and
recursing at depth-1. -/
def searchDFS (gene_states : List (String × Int)) (target_set : List String)
    (net : NetT) (transcriptional_signs : List (String × Int)) :
    Nat → String → Option Int → DFSState → List EdgeT → Bool → DFSState
  | 0 => fun _ _ st _ _ => st
  | Nat.succ depth => fun source action st linkers falsePathStatus =>
    match List.lookup source net with
    | none => st
    | some edges =>
      (edges.foldl
        (processEdge (searchDFS gene_states target_set net transcriptional_signs depth)
          gene_states target_set source action falsePathStatus)
        (st, linkers)).1

/-- Instrumented variant of `processEdge` whose recursive continuation also
reports the maximum nesting of recursive calls beneath it; the edge body
records `1 +` that nesting for the call it makes. -/
def processEdgeD (recurse : String → Option Int → DFSState → List EdgeT → Bool → DFSState × Nat)
    (gene_states : List (String × Int)) (target_set : List String)
    (source : String) (action : Option Int) (falsePathStatus : Bool)
    (acc : (DFSState × Nat) × List EdgeT) (e : String × String) : (DFSState × Nat) × List EdgeT :=
  let st := acc.1.1
  let used := acc.1.2
  let linkers := acc.2
  let interaction := e.1
  let target := e.2
  let pathStatus := pathStatusThisTarget falsePathStatus interaction
  let cls := classifyInteraction interaction
  if cls.1 = 0 then ((st, used), linkers)
  else
    let action_tt := actionThisTarget cls.1 action
    let this_state := List.lookup target gene_states
    if (List.lookup target gene_states).isSome && target_set.contains target
        && action_tt == this_state then
      let disc := setAdd (linkers.foldl setAdd st.discovered) (source, interaction, target)
      let st1 : DFSState :=
        { discovered := disc
          truePaths := if pathStatus then st.truePaths else st.truePaths ++ [target]
          falsePaths := if pathStatus then st.falsePaths ++ [target] else st.falsePaths }
      if cls.2 = "t" then ((st1, used), [])
      else
        let r := recurse target action_tt st1 [] pathStatus
        ((r.1, max used (r.2 + 1)), [])
    else
      let new_linkers := setAdd linkers (source, interaction, target)
      if cls.2 = "t" then ((st, used), linkers)
      else
        let r := recurse target action_tt st new_linkers pathStatus
        ((r.1, max used (r.2 + 1)), linkers)

/-- Instrumented variant of `searchDFS`, also returning the maximum nesting
of recursive `searchDFS` calls made beneath the call. -/
def searchDFSd (gene_states : List (String × Int)) (target_set : List String)
    (net : NetT) (transcriptional_signs : List (String × Int)) :
    Nat → String → Option Int → DFSState → List EdgeT → Bool → DFSState × Nat
  | 0 => fun _ _ st _ _ => (st, 0)
  | Nat.succ depth => fun source action st linkers falsePathStatus =>
    match List.lookup source net with
    | none => (st, 0)
    | some edges =>
      (edges.foldl
        (processEdgeD (searchDFSd gene_states target_set net transcriptional_signs depth)
          gene_states target_set source action falsePathStatus)
        ((st, 0), linkers)).1

/-- Directed `(source, target)` occurrences of all edges of a network, in
iteration order (`for s in network: for (i, t) in network[s]`). -/
def netEdgePairs (network : NetT) : List (String × String) :=
  network.flatMap (fun q => q.2.map (fun e => (q.1, e.2)))

/-- Body of the edge-collection loop of `connectedSubnets`: skip
self-links, keep edges with both endpoints in the node subset, adding them
to `edgelist` and — when the reverse pair is not already in `edgelist` —
to the undirected edge set `ugraph`. -/
def csStep (subnet_nodes : List String)
    (acc : List (String × String) × List (String × String)) (p : String × String) :
    List (String × String) × List (String × String) :=
  if p.1 = p.2 then acc
  else if p.1 ∈ subnet_nodes ∧ p.2 ∈ subnet_nodes then
    let edgelist := setAdd acc.1 p
    let ugraph := if (p.2, p.1) ∈ edgelist then acc.2 else setAdd acc.2 p
    (edgelist, ugraph)
  else acc

/-- Embedding of `connectedSubnets`: collect the filtered edge list and the
undirected edge set, then keep the edges whose two endpoints both occur as
nodes of the undirected graph built from `ugraph`. -/
def connectedSubnets (network : NetT) (subnet_nodes : List String) : List (String × String) :=
  let r := (netEdgePairs network).foldl (csStep subnet_nodes) ([], [])
  let nodes := r.2.map Prod.fst ++ r.2.map Prod.snd
  r.1.filter (fun q => decide (q.1 ∈ nodes) && decide (q.2 ∈ nodes))

/-- Plain filter the spec describes `connectedEdges` as: all edges of the
network with both endpoints in the node set, excluding self-loops.  Stated
from the spec's words, for comparison with `connectedSubnets`. -/
def connectedEdgesSpec (network : NetT) (nodeSet : List String) : List (String × String) :=
  (netEdgePairs network).filter
    (fun q => decide (q.1 ≠ q.2) && decide (q.1 ∈ nodeSet) && decide (q.2 ∈ nodeSet))

/-- Dictionary update `subnetwork[s].add(e)` (creating `subnetwork[s]` as
an empty set first when absent) on an association-list network. -/
def subnetAdd : NetT → String → (String × String) → NetT
  | [], s, e => [(s, [e])]
  | (k, es) :: rest, s, e =>
    if k = s then (k, setAdd es e) :: rest else (k, es) :: subnetAdd rest s e

/-- One direction of the `for (s, t) in edge_list` loop body of
`mapUGraphToNetwork`: when `a` is a key of the network, copy every edge
`(label, b)` outgoing from `a` into the subnetwork under key `a`. -/
def mapHalf (network : NetT) (a b : String) (sub : NetT) : NetT :=
  match List.lookup a network with
  | none => sub
  | some es => es.foldl (fun sb e => if e.2 = b then subnetAdd sb a (e.1, b) else sb) sub

/-- Body of the `for (s, t) in edge_list` loop of `mapUGraphToNetwork`:
copy every directed edge of the network from `s` to `t`, and every directed
edge from `t` to `s`, into the subnetwork with its original label. -/
def mapPairStep (network : NetT) (sub : NetT) (p : String × String) : NetT :=
  mapHalf network p.2 p.1 (mapHalf network p.1 p.2 sub)

/-- Embedding of `mapUGraphToNetwork`: map each undirected pair back onto
the directed network, starting from an empty subnetwork. -/
def mapUGraphToNetwork (edge_list : List (String × String)) (network : NetT) : NetT :=
  edge_list.foldl (mapPairStep network) []

/-- Membership of a labeled directed edge in a hash-key network. -/
def edgeInNet (network : NetT) (s i t : String) : Prop :=
  ∃ es, List.lookup s network = some es ∧ (i, t) ∈ es

instance (network : NetT) (s i t : String) : Decidable (edgeInNet network s i t) := by
  unfold edgeInNet
  cases List.lookup s network with
  | none => exact isFalse (by simp)
  | some es => exact decidable_of_iff ((i, t) ∈ es) (by simp)

/-! ### Doctest checks

Concrete evaluations matching the source's docstring examples and the
spec's concrete scenarios (the `connectedSubnets` evaluation matches the
code, which retains the disconnected `(T3, G5)` edge that the source's own
doctest omits). -/

example : classifyInteraction "component>" = (0, "component") := by decide
example : classifyInteraction "-a>" = (1, "a") := by decide
example : classifyInteraction "-t>" = (1, "t") := by decide
example : classifyInteraction "-t|" = (-1, "t") := by decide
example : classifyInteraction "-a|" = (-1, "a") := by decide
example : classifyInteraction "HPRD>" = (1, "INTERACTS") := by decide
example : classifyInteraction "REWIRED>" = (1, "REWIRED") := by decide
example : classifyInteraction "REWIRED|" = (-1, "REWIRED") := by decide
example : isRewired "REWIRED>" = true := by decide
example : isRewired "abc-component>" = true := by decide
example : isRewired "-a>" = false := by decide
example : isRewired "x\nREWIRED" = false := by decide
example : (classifyState [("A", "+"), ("B", "+")] [("B", "-"), ("C", "-")]).1 "A" = some 1 := by decide
example : (classifyState [("A", "+"), ("B", "+")] [("B", "-"), ("C", "-")]).1 "B" = some 1 := by decide
example : (classifyState [("A", "+"), ("B", "+")] [("B", "-"), ("C", "-")]).2 "B" = some (-1) := by decide

example :
    searchDFS [("T", 1)] ["T"] [("S", [("-a>", "T")])] [] 2 "S" (some 1) ⟨[], [], []⟩ [] false
      = ⟨[("S", "-a>", "T")], ["T"], []⟩ := by decide

example :
    searchDFS [("T", 1)] ["T"] [("S", [("-a|", "T")])] [] 2 "S" (some 1) ⟨[], [], []⟩ [] false
      = ⟨[], [], []⟩ := by decide

example :
    connectedSubnets
      [("S1", [("a>", "T1")]), ("S2", [("a>", "T2")]), ("T2", [("a>", "T1")]),
       ("T1", [("t|", "T2")]), ("T3", [("t>", "G5")])]
      ["S1", "T1", "T2", "T3", "G5"]
      = [("S1", "T1"), ("T2", "T1"), ("T1", "T2"), ("T3", "G5")] := by decide

example :
    mapUGraphToNetwork [("A", "B")] [("A", [("-a>", "B"), ("-t>", "C")])]
      = [("A", [("-a>", "B")])] := by decide

example : edgeInNet [("A", [("-a>", "B")])] "A" "-a>" "B" := by decide

/-! ### Basic lemmas -/

theorem setAdd_mem {α : Type} [DecidableEq α] (l : List α) (x y : α) :
    y ∈ setAdd l x ↔ y ∈ l ∨ y = x := by
  unfold setAdd
  split
  · next h =>
    constructor
    · exact fun hy => Or.inl hy
    · rintro (hy | rfl) <;> [exact hy; exact h]
  · simp [List.mem_append]

theorem setAdd_subset {α : Type} [DecidableEq α] (l : List α) (x y : α) (h : y ∈ l) :
    y ∈ setAdd l x := (setAdd_mem l x y).mpr (Or.inl h)

theorem actionThisTarget_none (i_type : Int) : actionThisTarget i_type none = none := by
  unfold actionThisTarget
  split
  · rfl
  · split <;> rfl

theorem none_beq_some (v : Int) : ((none : Option Int) == some v) = false := rfl

theorem pathStatusThisTarget_true (i : String) : pathStatusThisTarget true i = true := rfl

theorem actionThisTarget_neg_one (a : Option Int) : actionThisTarget (-1) a = none := rfl

theorem processEdge_none (recurse : String → Option Int → DFSState → List EdgeT → Bool → DFSState)
    (gs : List (String × Int)) (ts : List String) (source : String) (fps : Bool)
    (st : DFSState) (linkers : List EdgeT) (e : String × String)
    (hrec : ∀ t st' l f, recurse t none st' l f = st') :
    processEdge recurse gs ts source none fps (st, linkers) e = (st, linkers) := by
  unfold processEdge
  simp only [actionThisTarget_none]
  cases hl : List.lookup e.2 gs with
  | none => simp [hl, hrec]
  | some v => simp [hl, none_beq_some, hrec]

theorem foldl_processEdge_none
    (recurse : String → Option Int → DFSState → List EdgeT → Bool → DFSState)
    (gs : List (String × Int)) (ts : List String) (source : String) (fps : Bool)
    (hrec : ∀ t st' l f, recurse t none st' l f = st') :
    ∀ (edges : List (String × String)) (st : DFSState) (linkers : List EdgeT),
      edges.foldl (processEdge recurse gs ts source none fps) (st, linkers) = (st, linkers) := by
  intro edges
  induction edges with
  | nil => intro st linkers; rfl
  | cons e rest ih =>
    intro st linkers
    rw [List.foldl_cons, processEdge_none recurse gs ts source fps st linkers e hrec]
    exact ih st linkers

theorem searchDFS_none (gs : List (String × Int)) (ts : List String) (net : NetT)
    (tsg : List (String × Int)) :
    ∀ (d : Nat) (s : String) (st : DFSState) (l : List EdgeT) (f : Bool),
      searchDFS gs ts net tsg d s none st l f = st := by
  intro d
  induction d with
  | zero => intros; rfl
  | succ d ih =>
    intro s st l f
    simp only [searchDFS]
    cases hl : List.lookup s net with
    | none => rfl
    | some edges =>
      dsimp only
      rw [foldl_processEdge_none (searchDFS gs ts net tsg d) gs ts s f
        (fun t st' l' f' => ih t st' l' f') edges st l]

theorem processEdge_true_truePaths
    (recurse : String → Option Int → DFSState → List EdgeT → Bool → DFSState)
    (gs : List (String × Int)) (ts : List String) (source : String) (action : Option Int)
    (hrec : ∀ t a st' l', (recurse t a st' l' true).truePaths = st'.truePaths)
    (acc : DFSState × List EdgeT) (e : String × String) :
    (processEdge recurse gs ts source action true acc e).1.truePaths = acc.1.truePaths := by
  unfold processEdge
  simp only [pathStatusThisTarget_true]
  split
  · rfl
  · split <;> split <;> simp [hrec]

theorem foldl_processEdge_true
    (recurse : String → Option Int → DFSState → List EdgeT → Bool → DFSState)
    (gs : List (String × Int)) (ts : List String) (source : String) (action : Option Int)
    (hrec : ∀ t a st' l', (recurse t a st' l' true).truePaths = st'.truePaths) :
    ∀ (edges : List (String × String)) (acc : DFSState × List EdgeT),
      (edges.foldl (processEdge recurse gs ts source action true) acc).1.truePaths
        = acc.1.truePaths := by
  intro edges
  induction edges with
  | nil => intro acc; rfl
  | cons e rest ih =>
    intro acc
    rw [List.foldl_cons]
    rw [ih (processEdge recurse gs ts source action true acc e)]
    exact processEdge_true_truePaths recurse gs ts source action hrec acc e

theorem searchDFS_true_truePaths (gs : List (String × Int)) (ts : List String) (net : NetT)
    (tsg : List (String × Int)) :
    ∀ (d : Nat) (s : String) (a : Option Int) (st : DFSState) (l : List EdgeT),
      (searchDFS gs ts net tsg d s a st l true).truePaths = st.truePaths := by
  intro d
  induction d with
  | zero => intros; rfl
  | succ d ih =>
    intro s a st l
    simp only [searchDFS]
    cases hl : List.lookup s net with
    | none => rfl
    | some edges =>
      dsimp only
      exact foldl_processEdge_true (searchDFS gs ts net tsg d) gs ts s a
        (fun t a' st' l' => ih t a' st' l') edges (st, l)

/-! ### Claim theorems C1 and C3 -/

/-- Claim C1 (code bug evidence): the label `-a|` classifies to sign -1
(inactivating, type tag `a`), yet the sign-propagation step of `searchDFS`
leaves the propagated action `None` instead of the negated action `-1`,
because it tests for the sign value 2 that `classifyInteraction` never
produces. -/
theorem searchDFS_inactivating_action_is_none :
    classifyInteraction "-a|" = (-1, "a") ∧
    actionThisTarget (classifyInteraction "-a|").1 (some 1) = none ∧
    (none : Option Int) ≠ some (-1) := by
  refine ⟨by decide, by decide, by decide⟩

/-- Claim C3 (counterexample): on `up = {A:'+', B:'-'}` and
`down = {B:'+', C:'-'}` the combined state maps `B` to -1 (the up-sign
`'-'` wins), not to +1 as the claim states. -/
theorem classifyState_example_claim_false :
    ¬ (classifyState [("A", "+"), ("B", "-")] [("B", "+"), ("C", "-")]).1 "B" = some 1 := by
  decide

/-- Claim C3 (amended): on `up = {A:'+', B:'-'}` and `down = {B:'+', C:'-'}`
the combined state is `{A:+1, B:-1, C:-1}` (the up-sign wins for `B`) and
the transcriptional state is `{B:+1, C:-1}`. -/
theorem classifyState_example_amended : ∀ g : String,
    (classifyState [("A", "+"), ("B", "-")] [("B", "+"), ("C", "-")]).1 g
      = (if g = "B" then some (-1) else if g = "A" then some 1
         else if g = "C" then some (-1) else none) ∧
    (classifyState [("A", "+"), ("B", "-")] [("B", "+"), ("C", "-")]).2 g
      = (if g = "C" then some (-1) else if g = "B" then some 1 else none) := by
  intro g
  have h1 : signOf "-" = -1 := rfl
  have h2 : signOf "+" = 1 := rfl
  constructor <;>
  · by_cases hB : g = "B" <;> by_cases hA : g = "A" <;> by_cases hC : g = "C" <;>
      simp [classifyState, applySign, hB, hA, hC, h1, h2]

/-! ### Claim theorems C2, C5 and C7 -/

/-- Claim C2: traversing an edge whose label classifies to sign -1 leaves
the propagated action `None`; a search carrying the `None` action changes
nothing (no appends to `truePaths`/`falsePaths`, no additions to
`discovered`), and processing a sign -1 edge — including its entire
recursive continuation — leaves the mutable state exactly unchanged. -/
theorem searchDFS_inactivating_edge_no_effect :
    ∀ (gs : List (String × Int)) (ts : List String) (net : NetT) (tsg : List (String × Int))
      (d : Nat) (source : String) (action : Option Int) (st : DFSState)
      (linkers : List EdgeT) (fps : Bool) (interaction target : String),
      (classifyInteraction interaction).1 = -1 →
      actionThisTarget (classifyInteraction interaction).1 action = none ∧
      (∀ (d' : Nat) (s' : String) (st' : DFSState) (l' : List EdgeT) (f' : Bool),
        searchDFS gs ts net tsg d' s' none st' l' f' = st') ∧
      (processEdge (searchDFS gs ts net tsg d) gs ts source action fps (st, linkers)
        (interaction, target)).1 = st := by
  intro gs ts net tsg d source action st linkers fps interaction target h
  refine ⟨by rw [h]; exact actionThisTarget_neg_one action,
    fun d' s' st' l' f' => searchDFS_none gs ts net tsg d' s' st' l' f', ?_⟩
  unfold processEdge
  simp only [h, actionThisTarget_neg_one]
  cases hl : List.lookup target gs with
  | none => simp [hl, searchDFS_none gs ts net tsg d]
  | some v => simp [hl, none_beq_some, searchDFS_none gs ts net tsg d]

/-- Claim C2 witness: concrete instance at the inactivating edge `-a|`. -/
theorem searchDFS_inactivating_edge_no_effect_witness :
    actionThisTarget (classifyInteraction "-a|").1 (some 1) = none ∧
    searchDFS [("T", 1)] ["T"] [("S", [("-a|", "T")])] [] 2 "S" none ⟨[], [], []⟩ [] false
      = ⟨[], [], []⟩ ∧
    (processEdge (searchDFS [("T", 1)] ["T"] [("S", [("-a|", "T")])] [] 1) [("T", 1)] ["T"]
      "S" (some 1) false (⟨[], [], []⟩, []) ("-a|", "T")).1 = ⟨[], [], []⟩ := by
  have h := searchDFS_inactivating_edge_no_effect [("T", 1)] ["T"] [("S", [("-a|", "T")])] []
    1 "S" (some 1) ⟨[], [], []⟩ [] false "-a|" "T" (by decide)
  exact ⟨h.1, h.2.1 2 "S" ⟨[], [], []⟩ [] false, h.2.2⟩

/-- Claim C5: an edge whose label is rewired forces the false-path status
to `True` regardless of the inherited status; a search whose false-path
status is `True` never appends to `truePaths` (the status never reverts,
so matches at or below a rewired edge go to `falsePaths`); and on the
network `{S: {(REWIRED>, T)}}` with gene states `{T:+1}`, target set
`{T}`, initial action +1 and depth 2, discovery yields
`falsePathTargets = [T]` and `truePathTargets = []`. -/
theorem searchDFS_rewired_false_path :
    (∀ (fps : Bool) (interaction : String), isRewired interaction = true →
      pathStatusThisTarget fps interaction = true) ∧
    (∀ (gs : List (String × Int)) (ts : List String) (net : NetT) (tsg : List (String × Int))
      (d : Nat) (s : String) (a : Option Int) (st : DFSState) (l : List EdgeT),
      (searchDFS gs ts net tsg d s a st l true).truePaths = st.truePaths) ∧
    searchDFS [("T", 1)] ["T"] [("S", [("REWIRED>", "T")])] [] 2 "S" (some 1) ⟨[], [], []⟩ [] false
      = ⟨[("S", "REWIRED>", "T")], [], ["T"]⟩ := by
  refine ⟨?_, fun gs ts net tsg d s a st l => searchDFS_true_truePaths gs ts net tsg d s a st l,
    by decide⟩
  intro fps interaction h
  unfold pathStatusThisTarget
  rw [h, Bool.or_true]

/-- Claim C5 witness: the rewired label `REWIRED>` forces the false-path
status even from a clean (`False`) inherited status. -/
theorem searchDFS_rewired_false_path_witness :
    isRewired "REWIRED>" = true ∧ pathStatusThisTarget false "REWIRED>" = true :=
  ⟨by decide, searchDFS_rewired_false_path.1 false "REWIRED>" (by decide)⟩

/-- Claim C7: when an edge's label classifies to type tag `"t"`, the
result of processing that edge does not depend on the recursive
continuation at all — no recursive call is made from the edge's target on
that branch (the match bookkeeping still happens before the branch is
cut). -/
theorem processEdge_transcriptional_cut :
    ∀ (recurse recurse' : String → Option Int → DFSState → List EdgeT → Bool → DFSState)
      (gs : List (String × Int)) (ts : List String) (source : String) (action : Option Int)
      (fps : Bool) (acc : DFSState × List EdgeT) (interaction target : String),
      (classifyInteraction interaction).2 = "t" →
      processEdge recurse gs ts source action fps acc (interaction, target)
        = processEdge recurse' gs ts source action fps acc (interaction, target) := by
  intro recurse recurse' gs ts source action fps acc interaction target h
  unfold processEdge
  simp [h]

theorem foldl_applySign_not_mem (l : List (String × String)) :
    ∀ (m : String → Option Int) (g : String), g ∉ l.map Prod.fst →
      l.foldl (fun m p => applySign m p.1 p.2) m g = m g := by
  induction l with
  | nil => intro m g _; rfl
  | cons p rest ih =>
    intro m g h
    rw [List.map_cons, List.mem_cons] at h
    push_neg at h
    rw [List.foldl_cons, ih _ g h.2]
    unfold applySign
    rw [if_neg h.1]

theorem foldl_applySign_lookup (l : List (String × String)) :
    ∀ (m : String → Option Int) (g : String), (l.map Prod.fst).Nodup →
      l.foldl (fun m p => applySign m p.1 p.2) m g
        = match List.lookup g l with
          | some s => some (signOf s)
          | none => m g := by
  induction l with
  | nil => intro m g _; rfl
  | cons p rest ih =>
    intro m g h
    obtain ⟨k, v⟩ := p
    rw [List.map_cons, List.nodup_cons] at h
    rw [List.foldl_cons]
    by_cases hg : g = k
    · subst hg
      rw [foldl_applySign_not_mem rest _ g h.1]
      simp [applySign]
    · have hbk : (g == k) = false := beq_eq_false_iff_ne.mpr hg
      have hlk : List.lookup g ((k, v) :: rest) = List.lookup g rest := by
        rw [List.lookup_cons, hbk]
      rw [ih _ g h.2, hlk]
      cases List.lookup g rest with
      | none => simp [applySign, hg]
      | some s => rfl

theorem lookup_eq_some_of_mem (l : List (String × String)) :
    ∀ (g s : String), (l.map Prod.fst).Nodup → (g, s) ∈ l → List.lookup g l = some s := by
  induction l with
  | nil => intro g s _ hm; cases hm
  | cons p rest ih =>
    intro g s h hm
    obtain ⟨k, v⟩ := p
    rw [List.map_cons, List.nodup_cons] at h
    rcases List.mem_cons.mp hm with heq | hmem
    · cases heq
      exact List.lookup_cons_self
    · have hg : ¬g = k := fun hgp => h.1 (hgp ▸ List.mem_map.mpr ⟨(g, s), hmem, rfl⟩)
      rw [List.lookup_cons, beq_eq_false_iff_ne.mpr hg]
      exact ih g s h.2 hmem

/-- Claim C4: for sign maps with duplicate-free keys, the up-derived signs
overwrite the down-derived ones in the combined state (for a gene in both
inputs, the up-sign alone decides: +1 for `'+'`, -1 for `'-'`), while the
transcriptional state is exactly the down map's sign image, untouched by
the up pass. -/
theorem classifyState_precedence :
    ∀ (up down : List (String × String)),
      (up.map Prod.fst).Nodup → (down.map Prod.fst).Nodup →
      ∀ (g su sd : String), (g, su) ∈ up → (g, sd) ∈ down →
        ((su = "+" → (classifyState up down).1 g = some 1) ∧
         (su = "-" → (classifyState up down).1 g = some (-1)) ∧
         (∀ x : String, (classifyState up down).2 x
            = Option.map signOf (List.lookup x down))) := by
  intro up down hu hd g su sd hgu _
  have hc : (classifyState up down).1 g = some (signOf su) := by
    unfold classifyState
    dsimp only
    rw [foldl_applySign_lookup up _ g hu, lookup_eq_some_of_mem up g su hu hgu]
  refine ⟨fun hp => by rw [hc, hp]; rfl, fun hm => by rw [hc, hm]; rfl, ?_⟩
  intro x
  unfold classifyState
  dsimp only
  rw [foldl_applySign_lookup down _ x hd]
  cases List.lookup x down <;> rfl

/-- Claim C4 witness: concrete instance with `A` present in both inputs
(up-sign `'+'`, down-sign `'-'`). -/
theorem classifyState_precedence_witness :
    (classifyState [("A", "+")] [("A", "-")]).1 "A" = some 1 ∧
    (classifyState [("A", "+")] [("A", "-")]).2 "A"
      = Option.map signOf (List.lookup "A" [("A", "-")]) := by
  have h := classifyState_precedence [("A", "+")] [("A", "-")] (by decide) (by decide)
    "A" "+" "-" (by decide) (by decide)
  exact ⟨h.1 rfl, h.2.2 "A"⟩

theorem reContains_iff (pat : List Char) :
    ∀ cs : List Char, reContains pat cs = true ↔
      ∃ pre suf : List Char, cs = pre ++ pat ++ suf ∧ '\n' ∉ pre := by
  intro cs
  induction cs with
  | nil =>
    simp only [reContains, List.isPrefixOf_iff_prefix, List.prefix_nil]
    constructor
    · rintro rfl
      exact ⟨[], [], rfl, by simp⟩
    · rintro ⟨pre, suf, h, _⟩
      rcases List.append_eq_nil.mp h.symm with ⟨h12, _⟩
      exact (List.append_eq_nil.mp h12).2
  | cons c rest ih =>
    simp only [reContains, Bool.or_eq_true, Bool.and_eq_true, List.isPrefixOf_iff_prefix, ih,
      Bool.not_eq_true', decide_eq_false_iff_not]
    constructor
    · rintro (⟨t, ht⟩ | ⟨hc, pre, suf, hrest, hnl⟩)
      · exact ⟨[], t, by rw [List.nil_append, ht], by simp⟩
      · refine ⟨c :: pre, suf, by rw [hrest]; rfl, ?_⟩
        intro hmem
        rcases List.mem_cons.mp hmem with heq | hmem'
        · exact hc heq.symm
        · exact hnl hmem'
    · rintro ⟨pre, suf, hcs, hnl⟩
      cases pre with
      | nil =>
        left
        exact ⟨suf, by rw [List.nil_append] at hcs; exact hcs.symm⟩
      | cons p pre' =>
        right
        rw [List.cons_append, List.cons_append] at hcs
        have hcp : c = p := (List.cons.inj hcs).1
        have hrest : rest = pre' ++ pat ++ suf := (List.cons.inj hcs).2
        refine ⟨?_, pre', suf, hrest, fun hm => hnl (List.mem_cons.mpr (Or.inr hm))⟩
        intro hceq
        exact hnl (List.mem_cons.mpr (Or.inl (hceq.symm.trans hcp)))

/-- Claim C6 (counterexample): the label `"x\nREWIRED"` contains the
substring `REWIRED`, yet `isRewired` returns `False`, because Python's
`.` in `.*REWIRED.*` does not match the newline before the occurrence. -/
theorem isRewired_substring_claim_false :
    isRewired "x\nREWIRED" = false ∧
    ∃ pre suf : List Char, "x\nREWIRED".data = pre ++ "REWIRED".data ++ suf :=
  ⟨by decide, ⟨['x', '\n'], [], by decide⟩⟩

/-- Claim C6 (amended): `isRewired label` is true if and only if
`"REWIRED"` or `"-component"` occurs in the label at a position preceded
by no newline character. -/
theorem isRewired_iff : ∀ label : String,
    isRewired label = true ↔
      ((∃ pre suf : List Char, label.data = pre ++ "REWIRED".data ++ suf ∧ '\n' ∉ pre) ∨
       (∃ pre suf : List Char, label.data = pre ++ "-component".data ++ suf ∧ '\n' ∉ pre)) := by
  intro label
  unfold isRewired
  rw [Bool.or_eq_true, reContains_iff, reContains_iff]

theorem csStep_fst_mem (ns : List String)
    (acc : List (String × String) × List (String × String)) (p q : String × String) :
    q ∈ (csStep ns acc p).1 ↔ q ∈ acc.1 ∨ (q = p ∧ p.1 ≠ p.2 ∧ p.1 ∈ ns ∧ p.2 ∈ ns) := by
  unfold csStep
  split
  · next h =>
    constructor
    · exact Or.inl
    · rintro (hq | ⟨rfl, hne, _⟩)
      · exact hq
      · exact absurd h hne
  · next h =>
    split
    · next hin => simp [setAdd_mem, h, hin.1, hin.2]
    · next hnotin =>
      constructor
      · exact Or.inl
      · rintro (hq | ⟨rfl, _, h1, h2⟩)
        · exact hq
        · exact absurd ⟨h1, h2⟩ hnotin

theorem foldl_csStep_fst_mem (ns : List String) :
    ∀ (pairs : List (String × String)) (acc : List (String × String) × List (String × String))
      (q : String × String),
      q ∈ (pairs.foldl (csStep ns) acc).1 ↔
        q ∈ acc.1 ∨ (q ∈ pairs ∧ q.1 ≠ q.2 ∧ q.1 ∈ ns ∧ q.2 ∈ ns) := by
  intro pairs
  induction pairs with
  | nil => intro acc q; simp
  | cons p rest ih =>
    intro acc q
    rw [List.foldl_cons, ih, csStep_fst_mem]
    constructor
    · rintro ((hq | ⟨rfl, h⟩) | ⟨hmem, h⟩)
      · exact Or.inl hq
      · exact Or.inr ⟨List.mem_cons_self q rest, h⟩
      · exact Or.inr ⟨List.mem_cons.mpr (Or.inr hmem), h⟩
    · rintro (hq | ⟨hmem, h⟩)
      · exact Or.inl (Or.inl hq)
      · rcases List.mem_cons.mp hmem with rfl | hmem'
        · exact Or.inl (Or.inr ⟨rfl, h⟩)
        · exact Or.inr ⟨hmem', h⟩

theorem csStep_invariant (ns : List String)
    (acc : List (String × String) × List (String × String)) (p : String × String)
    (h : ∀ q ∈ acc.1, q ∈ acc.2 ∨ (q.2, q.1) ∈ acc.2) :
    ∀ q ∈ (csStep ns acc p).1, q ∈ (csStep ns acc p).2 ∨ (q.2, q.1) ∈ (csStep ns acc p).2 := by
  unfold csStep
  by_cases h12 : p.1 = p.2
  · rw [if_pos h12]; exact h
  · rw [if_neg h12]
    by_cases hns : p.1 ∈ ns ∧ p.2 ∈ ns
    · rw [if_pos hns]
      dsimp only
      by_cases hrev : (p.2, p.1) ∈ setAdd acc.1 p
      · rw [if_pos hrev]
        intro q hq
        rcases (setAdd_mem acc.1 p q).mp hq with hq' | heq
        · exact h q hq'
        · rw [heq]
          rcases (setAdd_mem acc.1 p (p.2, p.1)).mp hrev with hr | hr
          · rcases h (p.2, p.1) hr with h2 | h2
            · exact Or.inr h2
            · left
              simpa using h2
          · exact absurd (congrArg Prod.fst hr) (Ne.symm h12)
      · rw [if_neg hrev]
        intro q hq
        rcases (setAdd_mem acc.1 p q).mp hq with hq' | heq
        · rcases h q hq' with h2 | h2
          · exact Or.inl (setAdd_subset acc.2 p q h2)
          · exact Or.inr (setAdd_subset acc.2 p _ h2)
        · rw [heq]
          exact Or.inl ((setAdd_mem acc.2 p p).mpr (Or.inr rfl))
    · rw [if_neg hns]; exact h

theorem foldl_csStep_invariant (ns : List String) :
    ∀ (pairs : List (String × String)) (acc : List (String × String) × List (String × String)),
      (∀ q ∈ acc.1, q ∈ acc.2 ∨ (q.2, q.1) ∈ acc.2) →
      ∀ q ∈ (pairs.foldl (csStep ns) acc).1,
        q ∈ (pairs.foldl (csStep ns) acc).2 ∨ (q.2, q.1) ∈ (pairs.foldl (csStep ns) acc).2 := by
  intro pairs
  induction pairs with
  | nil => intro acc h; exact h
  | cons p rest ih =>
    intro acc h
    rw [List.foldl_cons]
    exact ih (csStep ns acc p) (csStep_invariant ns acc p h)

theorem connectedSubnets_mem (network : NetT) (ns : List String) (q : String × String) :
    q ∈ connectedSubnets network ns ↔
      q ∈ netEdgePairs network ∧ q.1 ≠ q.2 ∧ q.1 ∈ ns ∧ q.2 ∈ ns := by
  unfold connectedSubnets
  dsimp only
  rw [List.mem_filter]
  constructor
  · rintro ⟨hmem, _⟩
    rcases (foldl_csStep_fst_mem ns (netEdgePairs network) ([], []) q).mp hmem with h | h
    · cases h
    · exact h
  · intro h
    have hmem : q ∈ ((netEdgePairs network).foldl (csStep ns) ([], [])).1 :=
      (foldl_csStep_fst_mem ns (netEdgePairs network) ([], []) q).mpr (Or.inr h)
    refine ⟨hmem, ?_⟩
    have hinv := foldl_csStep_invariant ns (netEdgePairs network) ([], [])
      (by intro q' hq'; cases hq') q hmem
    simp only [Bool.and_eq_true, decide_eq_true_eq]
    rcases hinv with hg | hg
    · exact ⟨List.mem_append.mpr (Or.inl (List.mem_map.mpr ⟨q, hg, rfl⟩)),
        List.mem_append.mpr (Or.inr (List.mem_map.mpr ⟨q, hg, rfl⟩))⟩
    · exact ⟨List.mem_append.mpr (Or.inr (List.mem_map.mpr ⟨(q.2, q.1), hg, rfl⟩)),
        List.mem_append.mpr (Or.inl (List.mem_map.mpr ⟨(q.2, q.1), hg, rfl⟩))⟩

theorem netEdgePairs_mem (network : NetT) (s t : String) :
    (s, t) ∈ netEdgePairs network ↔ ∃ p ∈ network, p.1 = s ∧ ∃ e ∈ p.2, e.2 = t := by
  unfold netEdgePairs
  rw [List.mem_flatMap]
  constructor
  · rintro ⟨p, hp, hmem⟩
    rcases List.mem_map.mp hmem with ⟨e, he, heq⟩
    injection heq with h1 h2
    exact ⟨p, hp, h1, e, he, h2⟩
  · rintro ⟨p, hp, rfl, e, he, rfl⟩
    exact ⟨p, hp, List.mem_map.mpr ⟨e, he, rfl⟩⟩

/-- Claim C8: `connectedSubnets` returns exactly the directed pairs
`(s, t)` with some labeled edge from `s` to `t` in the network, `s ≠ t`,
and both endpoints in the node set: the undirected-graph node-membership
filter applied after collecting these edges removes nothing, and the
function is extensionally equal to the plain both-endpoints-in-set,
no-self-loop edge filter stated by the spec. -/
theorem connectedSubnets_eq_plain_filter :
    ∀ (network : NetT) (nodeSet : List String) (s t : String),
      ((s, t) ∈ connectedSubnets network nodeSet ↔
        ((∃ p ∈ network, p.1 = s ∧ ∃ e ∈ p.2, e.2 = t) ∧
          s ≠ t ∧ s ∈ nodeSet ∧ t ∈ nodeSet)) ∧
      ((s, t) ∈ connectedSubnets network nodeSet ↔
        (s, t) ∈ connectedEdgesSpec network nodeSet) := by
  intro network nodeSet s t
  have hspec : (s, t) ∈ connectedEdgesSpec network nodeSet ↔
      (s, t) ∈ netEdgePairs network ∧ s ≠ t ∧ s ∈ nodeSet ∧ t ∈ nodeSet := by
    unfold connectedEdgesSpec
    rw [List.mem_filter]
    simp only [Bool.and_eq_true, decide_eq_true_eq]
    tauto
  have hcs := connectedSubnets_mem network nodeSet (s, t)
  dsimp only at hcs
  rw [netEdgePairs_mem] at hcs
  exact ⟨hcs, hcs.trans (by rw [hspec, ← netEdgePairs_mem network s t])⟩

theorem subnetAdd_lookup_self (a : String) (e : String × String) :
    ∀ sub : NetT,
      List.lookup a (subnetAdd sub a e) = some (setAdd ((List.lookup a sub).getD []) e) := by
  intro sub
  induction sub with
  | nil =>
    show List.lookup a [(a, [e])] = some (setAdd ((List.lookup a ([] : NetT)).getD []) e)
    rw [List.lookup_cons_self, List.lookup_nil]
    rfl
  | cons kv rest ih =>
    obtain ⟨k, es⟩ := kv
    unfold subnetAdd
    by_cases hk : k = a
    · subst hk
      rw [if_pos rfl, List.lookup_cons_self, List.lookup_cons_self]
      rfl
    · rw [if_neg hk]
      have hak : (a == k) = false := beq_eq_false_iff_ne.mpr (Ne.symm hk)
      rw [List.lookup_cons, hak, List.lookup_cons, hak]
      exact ih

theorem subnetAdd_lookup_other (a : String) (e : String × String) (x : String) (hx : ¬x = a) :
    ∀ sub : NetT, List.lookup x (subnetAdd sub a e) = List.lookup x sub := by
  intro sub
  induction sub with
  | nil =>
    show List.lookup x [(a, [e])] = List.lookup x ([] : NetT)
    rw [List.lookup_cons, beq_eq_false_iff_ne.mpr hx, List.lookup_nil]
  | cons kv rest ih =>
    obtain ⟨k, es⟩ := kv
    unfold subnetAdd
    by_cases hk : k = a
    · subst hk
      rw [if_pos rfl, List.lookup_cons, List.lookup_cons, beq_eq_false_iff_ne.mpr hx]
    · rw [if_neg hk]
      by_cases hxk : x = k
      · subst hxk
        rw [List.lookup_cons_self, List.lookup_cons_self]
      · rw [List.lookup_cons, List.lookup_cons, beq_eq_false_iff_ne.mpr hxk]
        exact ih

theorem edgeInNet_subnetAdd (sub : NetT) (a : String) (e : String × String) (x i y : String) :
    edgeInNet (subnetAdd sub a e) x i y ↔ edgeInNet sub x i y ∨ (x = a ∧ (i, y) = e) := by
  by_cases hx : x = a
  · subst hx
    unfold edgeInNet
    rw [subnetAdd_lookup_self]
    constructor
    · rintro ⟨es, hes, hmem⟩
      injection hes with hes'
      rw [← hes'] at hmem
      rcases (setAdd_mem _ e (i, y)).mp hmem with hm | hm
      · cases hl : List.lookup x sub with
        | none => rw [hl] at hm; cases hm
        | some es0 => rw [hl] at hm; exact Or.inl ⟨es0, rfl, hm⟩
      · exact Or.inr ⟨rfl, hm⟩
    · rintro (⟨es0, hes0, hmem⟩ | ⟨_, hiy⟩)
      · exact ⟨_, rfl, (setAdd_mem _ e (i, y)).mpr (Or.inl (by rw [hes0]; exact hmem))⟩
      · exact ⟨_, rfl, (setAdd_mem _ e (i, y)).mpr (Or.inr hiy)⟩
  · unfold edgeInNet
    rw [subnetAdd_lookup_other a e x hx]
    constructor
    · exact Or.inl
    · rintro (h | ⟨hxa, _⟩)
      · exact h
      · exact absurd hxa hx

theorem foldl_subnetAdd_mem (a b : String) :
    ∀ (es : List (String × String)) (sub : NetT) (x i y : String),
      edgeInNet (es.foldl (fun sb e => if e.2 = b then subnetAdd sb a (e.1, b) else sb) sub) x i y ↔
        edgeInNet sub x i y ∨ (x = a ∧ y = b ∧ (i, b) ∈ es) := by
  intro es
  induction es with
  | nil => intro sub x i y; simp
  | cons e rest ih =>
    intro sub x i y
    rw [List.foldl_cons]
    by_cases he : e.2 = b
    · rw [if_pos he, ih, edgeInNet_subnetAdd]
      constructor
      · rintro ((h | ⟨hx, hiy⟩) | ⟨hx, hy, hmem⟩)
        · exact Or.inl h
        · injection hiy with h1 h2
          refine Or.inr ⟨hx, h2, ?_⟩
          rw [h1, ← he]
          exact List.mem_cons_self e rest
        · exact Or.inr ⟨hx, hy, List.mem_cons.mpr (Or.inr hmem)⟩
      · rintro (h | ⟨hx, hy, hmem⟩)
        · exact Or.inl (Or.inl h)
        · rcases List.mem_cons.mp hmem with heq | hmem'
          · refine Or.inl (Or.inr ⟨hx, ?_⟩)
            have h1 : e.1 = i := by rw [← heq]
            rw [hy, h1]
          · exact Or.inr ⟨hx, hy, hmem'⟩
    · rw [if_neg he, ih]
      constructor
      · rintro (h | ⟨hx, hy, hmem⟩)
        · exact Or.inl h
        · exact Or.inr ⟨hx, hy, List.mem_cons.mpr (Or.inr hmem)⟩
      · rintro (h | ⟨hx, hy, hmem⟩)
        · exact Or.inl h
        · rcases List.mem_cons.mp hmem with heq | hmem'
          · exact absurd (congrArg Prod.snd heq.symm) he
          · exact Or.inr ⟨hx, hy, hmem'⟩

theorem mapHalf_mem (network : NetT) (sub : NetT) (a b x i y : String) :
    edgeInNet (mapHalf network a b sub) x i y ↔
      edgeInNet sub x i y ∨ (x = a ∧ y = b ∧ edgeInNet network a i b) := by
  unfold mapHalf
  cases h : List.lookup a network with
  | none =>
    dsimp only
    constructor
    · exact Or.inl
    · rintro (hs | ⟨_, _, es', hes', _⟩)
      · exact hs
      · rw [h] at hes'
        cases hes'
  | some es =>
    dsimp only
    rw [foldl_subnetAdd_mem a b es sub x i y]
    constructor
    · rintro (hs | ⟨hx, hy, hm⟩)
      · exact Or.inl hs
      · exact Or.inr ⟨hx, hy, es, h, hm⟩
    · rintro (hs | ⟨hx, hy, es', hes', hm⟩)
      · exact Or.inl hs
      · rw [h] at hes'
        injection hes' with hee
        exact Or.inr ⟨hx, hy, by rw [hee]; exact hm⟩

theorem mapPairStep_mem (network : NetT) (sub : NetT) (p : String × String) (x i y : String) :
    edgeInNet (mapPairStep network sub p) x i y ↔
      edgeInNet sub x i y ∨ (edgeInNet network x i y ∧ ((x, y) = p ∨ (y, x) = p)) := by
  unfold mapPairStep
  rw [mapHalf_mem, mapHalf_mem]
  constructor
  · rintro ((hs | ⟨hx, hy, hn⟩) | ⟨hx, hy, hn⟩)
    · exact Or.inl hs
    · subst hx; subst hy
      exact Or.inr ⟨hn, Or.inl rfl⟩
    · subst hx; subst hy
      exact Or.inr ⟨hn, Or.inr rfl⟩
  · rintro (hs | ⟨hn, hp | hp⟩)
    · exact Or.inl (Or.inl hs)
    · cases hp.symm
      exact Or.inl (Or.inr ⟨rfl, rfl, hn⟩)
    · cases hp.symm
      exact Or.inr ⟨rfl, rfl, hn⟩

theorem foldl_mapPairStep_mem (network : NetT) :
    ∀ (l : List (String × String)) (sub : NetT) (x i y : String),
      edgeInNet (l.foldl (mapPairStep network) sub) x i y ↔
        edgeInNet sub x i y ∨
          (edgeInNet network x i y ∧ ((x, y) ∈ l ∨ (y, x) ∈ l)) := by
  intro l
  induction l with
  | nil => intro sub x i y; simp
  | cons p rest ih =>
    intro sub x i y
    rw [List.foldl_cons, ih, mapPairStep_mem]
    constructor
    · rintro ((hs | ⟨hn, hp | hp⟩) | ⟨hn, hm | hm⟩)
      · exact Or.inl hs
      · exact Or.inr ⟨hn, Or.inl (List.mem_cons.mpr (Or.inl hp))⟩
      · exact Or.inr ⟨hn, Or.inr (List.mem_cons.mpr (Or.inl hp))⟩
      · exact Or.inr ⟨hn, Or.inl (List.mem_cons.mpr (Or.inr hm))⟩
      · exact Or.inr ⟨hn, Or.inr (List.mem_cons.mpr (Or.inr hm))⟩
    · rintro (hs | ⟨hn, hm | hm⟩)
      · exact Or.inl (Or.inl hs)
      · rcases List.mem_cons.mp hm with heq | hm'
        · exact Or.inl (Or.inr ⟨hn, Or.inl heq⟩)
        · exact Or.inr ⟨hn, Or.inl hm'⟩
      · rcases List.mem_cons.mp hm with heq | hm'
        · exact Or.inl (Or.inr ⟨hn, Or.inr heq⟩)
        · exact Or.inr ⟨hn, Or.inr hm'⟩

/-- Claim C9: `mapUGraphToNetwork` never invents labels and is a
round-trip on present edges — a labeled edge is in the output subnetwork
exactly when it is a directed edge of the input network between the two
members of some listed undirected pair (in either orientation), with its
original label; a pair with no directed counterpart contributes nothing. -/
theorem mapUGraphToNetwork_roundtrip :
    ∀ (edge_list : List (String × String)) (network : NetT) (s i t : String),
      edgeInNet (mapUGraphToNetwork edge_list network) s i t ↔
        (edgeInNet network s i t ∧ ((s, t) ∈ edge_list ∨ (t, s) ∈ edge_list)) := by
  intro edge_list network s i t
  unfold mapUGraphToNetwork
  rw [foldl_mapPairStep_mem]
  constructor
  · rintro (⟨es, hes, _⟩ | h)
    · cases hes
    · exact h
  · exact Or.inr

theorem processEdgeD_agree
    (recD : String → Option Int → DFSState → List EdgeT → Bool → DFSState × Nat)
    (rec' : String → Option Int → DFSState → List EdgeT → Bool → DFSState)
    (hrec : ∀ t a s l f, (recD t a s l f).1 = rec' t a s l f)
    (gs : List (String × Int)) (ts : List String) (source : String) (action : Option Int)
    (fps : Bool) (st : DFSState) (used : Nat) (linkers : List EdgeT) (e : String × String) :
    (processEdgeD recD gs ts source action fps ((st, used), linkers) e).1.1
        = (processEdge rec' gs ts source action fps (st, linkers) e).1 ∧
    (processEdgeD recD gs ts source action fps ((st, used), linkers) e).2
        = (processEdge rec' gs ts source action fps (st, linkers) e).2 := by
  unfold processEdge processEdgeD
  by_cases h0 : (classifyInteraction e.1).1 = 0
  · constructor <;> simp only [if_pos h0]
  · simp only [if_neg h0]
    by_cases hm : ((List.lookup e.2 gs).isSome && ts.contains e.2
        && (actionThisTarget (classifyInteraction e.1).1 action == List.lookup e.2 gs)) = true
    · simp only [if_pos hm]
      by_cases ht : (classifyInteraction e.1).2 = "t"
      · constructor <;> simp only [if_pos ht]
      · constructor <;> simp [if_neg ht, hrec]
    · simp only [if_neg hm]
      by_cases ht : (classifyInteraction e.1).2 = "t"
      · constructor <;> simp only [if_pos ht]
      · constructor <;> simp [if_neg ht, hrec]

theorem foldl_processEdgeD_agree
    (recD : String → Option Int → DFSState → List EdgeT → Bool → DFSState × Nat)
    (rec' : String → Option Int → DFSState → List EdgeT → Bool → DFSState)
    (hrec : ∀ t a s l f, (recD t a s l f).1 = rec' t a s l f)
    (gs : List (String × Int)) (ts : List String) (source : String) (action : Option Int)
    (fps : Bool) :
    ∀ (edges : List (String × String)) (st : DFSState) (used : Nat) (linkers : List EdgeT),
      (edges.foldl (processEdgeD recD gs ts source action fps) ((st, used), linkers)).1.1
          = (edges.foldl (processEdge rec' gs ts source action fps) (st, linkers)).1 := by
  intro edges
  induction edges with
  | nil => intro st used linkers; rfl
  | cons e rest ih =>
    intro st used linkers
    rw [List.foldl_cons, List.foldl_cons]
    have h := processEdgeD_agree recD rec' hrec gs ts source action fps st used linkers e
    have ihx := ih (processEdgeD recD gs ts source action fps ((st, used), linkers) e).1.1
      (processEdgeD recD gs ts source action fps ((st, used), linkers) e).1.2
      (processEdgeD recD gs ts source action fps ((st, used), linkers) e).2
    exact ihx.trans (by rw [h.1, h.2])

theorem searchDFSd_fst (gs : List (String × Int)) (ts : List String) (net : NetT)
    (tsg : List (String × Int)) :
    ∀ (d : Nat) (source : String) (action : Option Int) (st : DFSState)
      (linkers : List EdgeT) (fps : Bool),
      (searchDFSd gs ts net tsg d source action st linkers fps).1
        = searchDFS gs ts net tsg d source action st linkers fps := by
  intro d
  induction d with
  | zero => intros; rfl
  | succ d ih =>
    intro source action st linkers fps
    simp only [searchDFSd, searchDFS]
    cases hl : List.lookup source net with
    | none => rfl
    | some edges =>
      dsimp only
      exact foldl_processEdgeD_agree (searchDFSd gs ts net tsg d) (searchDFS gs ts net tsg d)
        (fun t a s l f => ih t a s l f) gs ts source action fps edges st 0 linkers

theorem processEdgeD_used_le (d : Nat)
    (recD : String → Option Int → DFSState → List EdgeT → Bool → DFSState × Nat)
    (hrec : ∀ t a s l f, (recD t a s l f).2 ≤ d)
    (gs : List (String × Int)) (ts : List String) (source : String) (action : Option Int)
    (fps : Bool) (acc : (DFSState × Nat) × List EdgeT) (e : String × String) :
    (processEdgeD recD gs ts source action fps acc e).1.2 ≤ max acc.1.2 (d + 1) := by
  have hb : ∀ t a s l f, max acc.1.2 ((recD t a s l f).2 + 1) ≤ max acc.1.2 (d + 1) :=
    fun t a s l f => max_le (le_max_left _ _)
      (le_trans (Nat.succ_le_succ (hrec t a s l f)) (le_max_right _ _))
  unfold processEdgeD
  by_cases h0 : (classifyInteraction e.1).1 = 0
  · simp only [if_pos h0]
    exact le_max_left _ _
  · simp only [if_neg h0]
    by_cases hm : ((List.lookup e.2 gs).isSome && ts.contains e.2
        && (actionThisTarget (classifyInteraction e.1).1 action == List.lookup e.2 gs)) = true
    · simp only [if_pos hm]
      by_cases ht : (classifyInteraction e.1).2 = "t"
      · simp only [if_pos ht]
        exact le_max_left _ _
      · simp only [if_neg ht]
        exact hb _ _ _ _ _
    · simp only [if_neg hm]
      by_cases ht : (classifyInteraction e.1).2 = "t"
      · simp only [if_pos ht]
        exact le_max_left _ _
      · simp only [if_neg ht]
        exact hb _ _ _ _ _

theorem foldl_processEdgeD_used_le (d : Nat)
    (recD : String → Option Int → DFSState → List EdgeT → Bool → DFSState × Nat)
    (hrec : ∀ t a s l f, (recD t a s l f).2 ≤ d)
    (gs : List (String × Int)) (ts : List String) (source : String) (action : Option Int)
    (fps : Bool) :
    ∀ (edges : List (String × String)) (acc : (DFSState × Nat) × List EdgeT),
      (edges.foldl (processEdgeD recD gs ts source action fps) acc).1.2
        ≤ max acc.1.2 (d + 1) := by
  intro edges
  induction edges with
  | nil => intro acc; exact le_max_left _ _
  | cons e rest ih =>
    intro acc
    rw [List.foldl_cons]
    refine le_trans (ih (processEdgeD recD gs ts source action fps acc e)) (max_le ?_ ?_)
    · exact processEdgeD_used_le d recD hrec gs ts source action fps acc e
    · exact le_max_right _ _

theorem searchDFSd_snd_le (gs : List (String × Int)) (ts : List String) (net : NetT)
    (tsg : List (String × Int)) :
    ∀ (d : Nat) (source : String) (action : Option Int) (st : DFSState)
      (linkers : List EdgeT) (fps : Bool),
      (searchDFSd gs ts net tsg d source action st linkers fps).2 ≤ d := by
  intro d
  induction d with
  | zero => intros; exact le_rfl
  | succ d ih =>
    intro source action st linkers fps
    simp only [searchDFSd]
    cases hl : List.lookup source net with
    | none => exact Nat.zero_le _
    | some edges =>
      dsimp only
      refine le_trans (foldl_processEdgeD_used_le d (searchDFSd gs ts net tsg d)
        (fun t a s l f => ih t a s l f) gs ts source action fps edges ((st, 0), linkers)) ?_
      exact max_le (Nat.zero_le _) le_rfl

/-- Claim C10: the recursive search terminates for every depth: a call
with depth 0 returns the state immediately, and (via the instrumented
variant, which computes the same state) the nesting of recursive calls
beneath a call at depth `d` never exceeds `d`, since each recursive call
decreases the depth by one. -/
theorem searchDFS_terminates_depth_bounded :
    ∀ (gs : List (String × Int)) (ts : List String) (net : NetT) (tsg : List (String × Int))
      (d : Nat) (source : String) (action : Option Int) (st : DFSState)
      (linkers : List EdgeT) (fps : Bool),
      searchDFS gs ts net tsg 0 source action st linkers fps = st ∧
      (searchDFSd gs ts net tsg d source action st linkers fps).1
        = searchDFS gs ts net tsg d source action st linkers fps ∧
      (searchDFSd gs ts net tsg d source action st linkers fps).2 ≤ d :=
  fun gs ts net tsg d source action st linkers fps =>
    ⟨rfl, searchDFSd_fst gs ts net tsg d source action st linkers fps,
      searchDFSd_snd_le gs ts net tsg d source action st linkers fps⟩

/-- Claim C7 witness: a transcriptional edge `-t>` processed with two
different continuations (the identity continuation and one that visibly
mutates the state) yields the same result. -/
theorem processEdge_transcriptional_cut_witness :
    processEdge (fun _ _ s _ _ => s) [("B", 1)] ["B"] "A" (some 1) false
      (⟨[], [], []⟩, []) ("-t>", "B")
    = processEdge (fun t _ s _ _ => { s with truePaths := s.truePaths ++ [t] })
      [("B", 1)] ["B"] "A" (some 1) false (⟨[], [], []⟩, []) ("-t>", "B") :=
  processEdge_transcriptional_cut _ _ [("B", 1)] ["B"] "A" (some 1) false
    (⟨[], [], []⟩, []) "-t>" "B" (by decide)
